import Mathlib

/-
Shallow embedding of the `ym` toy JSON parser (Rust sources `src/token.rs`
and `src/de.rs`).

Rust strings are modelled as lists of characters.  The tokenizer cursor (a
`CharIndices` iterator over the input) is modelled as the list of characters
not yet consumed: `peek` is inspection of the head, consuming one character
is taking the tail.  Every `&mut self` method of the Rust code becomes a
function from the remaining input to a pair of its result and the remaining
input afterwards, so that what a failing call consumed is observable.
-/

/-- Lexical tokens, from `src/token.rs` (`enum Token`). -/
inductive Token where
  | LeftBracket : Token
  | RightBracket : Token
  | LeftBrace : Token
  | RightBrace : Token
  | Comma : Token
  | Colon : Token
  | Number : List Char → Token
  | Integer : List Char → Token
  | Fraction : List Char → Token
  | Exponent : List Char → Token
  | String : List Char → Token
  | Bool : Bool → Token
  | Null : Token
  deriving DecidableEq, Repr

/-- Errors, from `src/token.rs` (`enum Error`). -/
inductive Error where
  | SomethingError : Error
  | EOF : Error
  | InvalidEscapeChar : Error
  | InvalidString : Error
  | InvalidNumber : Error
  | InvalidToken : Error
  deriving DecidableEq, Repr

/-- From `Token::to_char`: the single character of a structural token. -/
def Token.to_char : Token → Option Char
  | Token.LeftBracket => some '['
  | Token.RightBracket => some ']'
  | Token.LeftBrace => some '{'
  | Token.RightBrace => some '}'
  | Token.Comma => some ','
  | Token.Colon => some ':'
  | _ => none

namespace Tokenizer

/-- From `Tokenizer::eatc`: consume the next character iff it equals `c`. -/
def eatc (c : Char) (l : List Char) : Bool × List Char :=
  match l with
  | x :: r => if x = c then (true, r) else (false, x :: r)
  | [] => (false, [])

/-- The comparison loop of `Tokenizer::eats`: does the expected literal `s`
match the start of the remaining input?  The Rust code walks a cloned
iterator, so nothing is consumed while comparing. -/
def litMatch : List Char → List Char → Bool
  | [], _ => true
  | _ :: _, [] => false
  | p :: ps, x :: xs => if p = x then litMatch ps xs else false

/-- From `Tokenizer::eats`: on a full match of `s` the Rust code then
consumes exactly `s.length` characters, otherwise it consumes nothing. -/
def eats (s : List Char) (l : List Char) : Bool × List Char :=
  if litMatch s l then (true, l.drop s.length) else (false, l)

/-- From `Tokenizer::eat_whitespace`: the short-circuit chain
`eatc(' ') || eatc('\n') || eatc('\r') || eatc('\t')`. -/
def eat_whitespace (l : List Char) : Bool × List Char :=
  match eatc ' ' l with
  | (true, r) => (true, r)
  | (false, _) =>
    match eatc '\n' l with
    | (true, r) => (true, r)
    | (false, _) =>
      match eatc '\r' l with
      | (true, r) => (true, r)
      | (false, _) => eatc '\t' l

/-- The `while self.eat_whitespace() {}` loop of `Tokenizer::eat_whitespaces`.
A successful `eat_whitespace` on `c :: r` consumes exactly the head `c` and
leaves `r`, so the loop recurses on the tail. -/
def wsLoop : List Char → List Char
  | [] => []
  | c :: r => if (eat_whitespace (c :: r)).1 then wsLoop r else c :: r

/-- From `Tokenizer::eat_whitespaces`. -/
def eat_whitespaces (l : List Char) : Bool × List Char :=
  match eat_whitespace l with
  | (false, _) => (false, l)
  | (true, r) => (true, wsLoop r)

/-- From `Tokenizer::eat_token`. -/
def eat_token (t : Token) (l : List Char) : Bool × List Char :=
  match Token.to_char t with
  | some c => eatc c l
  | none => (false, l)

/-- Prepends a successfully scanned character onto the value built by the
rest of the string scan (the `val.push` calls of `Tokenizer::string` build
the value front to back). -/
def pushChar (c : Char) : Except Error (List Char) × List Char → Except Error (List Char) × List Char
  | (Except.ok v, rest) => (Except.ok (c :: v), rest)
  | (Except.error e, rest) => (Except.error e, rest)

/-- The `loop` of `Tokenizer::string`, entered after the opening quote was
consumed.  A backslash is consumed before its successor is examined; an
unrecognized successor (or end of input right after the backslash, since the
Rust `match` arm `_` also catches `None`) is `InvalidEscapeChar` and the bad
successor is not consumed. -/
def stringLoop : List Char → Except Error (List Char) × List Char
  | [] => (Except.error Error.EOF, [])
  | c :: r =>
    if c = '\\' then
      match r with
      | [] => (Except.error Error.InvalidEscapeChar, [])
      | e :: r2 =>
        if e = '"' then pushChar '"' (stringLoop r2)
        else if e = '\\' then pushChar '\\' (stringLoop r2)
        else if e = '/' then pushChar '/' (stringLoop r2)
        else if e = 'b' then pushChar '\x08' (stringLoop r2)
        else if e = 'f' then pushChar '\x0C' (stringLoop r2)
        else if e = 'n' then pushChar '\n' (stringLoop r2)
        else if e = 'r' then pushChar '\r' (stringLoop r2)
        else if e = 't' then pushChar '\t' (stringLoop r2)
        else (Except.error Error.InvalidEscapeChar, e :: r2)
    else if c = '"' then (Except.ok [], r)
    else pushChar c (stringLoop r)

/-- From `Tokenizer::string`: the opening-quote guard, then the scan loop. -/
def string (l : List Char) : Except Error (Option Token) × List Char :=
  match l with
  | c :: r =>
    if c = '"' then
      match stringLoop r with
      | (Except.ok v, rest) => (Except.ok (some (Token.String v)), rest)
      | (Except.error e, rest) => (Except.error e, rest)
    else (Except.error Error.InvalidString, c :: r)
  | [] => (Except.error Error.InvalidString, [])

/-- The maximal-digit-run loops of `Tokenizer::integer` and
`Tokenizer::fraction`: the consumed run and the remaining input. -/
def digitsLoop : List Char → List Char × List Char
  | [] => ([], [])
  | c :: r =>
    if c.isDigit then ((c :: (digitsLoop r).1), (digitsLoop r).2)
    else ([], c :: r)

/-- The part of `Tokenizer::integer` after the optional minus sign: a `0`
ends the integer part at once, otherwise a maximal digit run is consumed. -/
def integerAfterSign (sign : List Char) (l : List Char) : Except Error (Option Token) × List Char :=
  match l with
  | c :: r =>
    if c = '0' then (Except.ok (some (Token.Integer (sign ++ ['0']))), r)
    else
      (Except.ok (some (Token.Integer (sign ++ (digitsLoop (c :: r)).1))), (digitsLoop (c :: r)).2)
  | [] => (Except.ok (some (Token.Integer sign)), [])

/-- From `Tokenizer::integer`: optional minus sign, then the digit part.
This function never fails. -/
def integer (l : List Char) : Except Error (Option Token) × List Char :=
  match l with
  | c :: r => if c = '-' then integerAfterSign ['-'] r else integerAfterSign [] (c :: r)
  | [] => integerAfterSign [] []

/-- From `Tokenizer::fraction`: a leading non-digit fails with
`InvalidNumber` and consumes nothing, but at end of input the leading `if
let Some(...) = self.peek()` is skipped and an empty run is returned. -/
def fraction (l : List Char) : Except Error (Option Token) × List Char :=
  match l with
  | [] => (Except.ok (some (Token.Fraction [])), [])
  | c :: r =>
    if c.isDigit then (Except.ok (some (Token.Fraction (c :: (digitsLoop r).1))), (digitsLoop r).2)
    else (Except.error Error.InvalidNumber, c :: r)

/-- The part of `Tokenizer::exponent` after the optional sign: the digit run
is read with the fraction logic. -/
def exponentAfterSign (sign : List Char) (l : List Char) : Except Error (Option Token) × List Char :=
  match fraction l with
  | (Except.ok (some (Token.Fraction f)), rest) => (Except.ok (some (Token.Exponent (sign ++ f))), rest)
  | (_, rest) => (Except.error Error.InvalidNumber, rest)

/-- From `Tokenizer::exponent`: optional `+`/`-`, then digits. -/
def exponent (l : List Char) : Except Error (Option Token) × List Char :=
  match l with
  | c :: r => if c = '-' ∨ c = '+' then exponentAfterSign [c] r else exponentAfterSign [] (c :: r)
  | [] => exponentAfterSign [] []

/-- The exponent phase of `Tokenizer::number`: `v` is the text built so far.
If the next character is not `e`/`E` (or the input ended) the number ends
here; otherwise the `e`/`E` is consumed and an exponent is required. -/
def numberExp (v : List Char) (l : List Char) : Except Error (Option Token) × List Char :=
  match l with
  | [] => (Except.ok (some (Token.Number v)), [])
  | c :: l4 =>
    if c = 'e' ∨ c = 'E' then
      match exponent l4 with
      | (Except.ok (some (Token.Exponent x)), l5) =>
        (Except.ok (some (Token.Number (v ++ c :: x))), l5)
      | (_, l5) => (Except.error Error.InvalidNumber, l5)
    else (Except.ok (some (Token.Number v)), c :: l4)

/-- The fraction phase of `Tokenizer::number`, entered with the integer part
`i` already built.  If the next character is not `.` (or the input ended)
the number is just the integer part; otherwise the `.` is consumed and a
fraction is required, then the exponent phase runs. -/
def numberTail (i : List Char) (l : List Char) : Except Error (Option Token) × List Char :=
  match l with
  | [] => (Except.ok (some (Token.Number i)), [])
  | c :: l2 =>
    if c = '.' then
      match fraction l2 with
      | (Except.ok (some (Token.Fraction f)), l3) => numberExp (i ++ '.' :: f) l3
      | (_, l3) => (Except.error Error.InvalidNumber, l3)
    else (Except.ok (some (Token.Number i)), c :: l2)

/-- From `Tokenizer::number`: integer, fraction and exponent phases in
sequence. -/
def number (l : List Char) : Except Error (Option Token) × List Char :=
  match integer l with
  | (Except.ok (some (Token.Integer i)), l1) => numberTail i l1
  | (_, l1) => (Except.error Error.InvalidNumber, l1)

/-- From `Tokenizer::boolean`: all-or-nothing match of `true`, then `false`. -/
def boolean (l : List Char) : Except Error (Option Token) × List Char :=
  match eats ['t', 'r', 'u', 'e'] l with
  | (true, r) => (Except.ok (some (Token.Bool true)), r)
  | (false, _) =>
    match eats ['f', 'a', 'l', 's', 'e'] l with
    | (true, r) => (Except.ok (some (Token.Bool false)), r)
    | (false, _) => (Except.error Error.InvalidToken, l)

/-- From `Tokenizer::null`: all-or-nothing match of `null`. -/
def null (l : List Char) : Except Error (Option Token) × List Char :=
  match eats ['n', 'u', 'l', 'l'] l with
  | (true, r) => (Except.ok (some Token.Null), r)
  | (false, _) => (Except.error Error.InvalidToken, l)

/-- From `Tokenizer::next`: dispatch on the next unconsumed character. -/
def next (l : List Char) : Except Error (Option Token) × List Char :=
  match l with
  | [] => (Except.error Error.EOF, [])
  | c :: r =>
    if c = '{' then (Except.ok (some Token.LeftBrace), r)
    else if c = '}' then (Except.ok (some Token.RightBrace), r)
    else if c = '[' then (Except.ok (some Token.LeftBracket), r)
    else if c = ']' then (Except.ok (some Token.RightBracket), r)
    else if c = ',' then (Except.ok (some Token.Comma), r)
    else if c = ':' then (Except.ok (some Token.Colon), r)
    else if c = '"' then string (c :: r)
    else if c.isDigit ∨ c = '-' then number (c :: r)
    else if c = 't' ∨ c = 'f' then boolean (c :: r)
    else if c = 'n' then null (c :: r)
    else (Except.error Error.InvalidToken, c :: r)

end Tokenizer

/-- Parsed values, from `src/de.rs` (`enum Value`).  The Rust
`HashMap<String, Value>` payload of `Object` is modelled as an association
list of key/value pairs kept in first-insertion order; see `insertKV`. -/
inductive Value where
  | Object : List (List Char × Value) → Value
  | Array : List Value → Value
  | String : List Char → Value
  | Number : List Char → Value
  | Bool : Bool → Value
  | Null : Value
  deriving Repr

/-- Model of `HashMap::insert` on the association list: an existing binding
of the key is overwritten in place (last write wins), a new key is appended. -/
def insertKV (m : List (List Char × Value)) (k : List Char) (v : Value) : List (List Char × Value) :=
  match m with
  | [] => [(k, v)]
  | (k2, v2) :: r => if k2 = k then (k, v) :: r else (k2, v2) :: insertKV r k v

/-- Lookup in the association-list model of the object map. -/
def lookupKV (m : List (List Char × Value)) (k : List Char) : Option Value :=
  match m with
  | [] => none
  | (k2, v2) :: r => if k2 = k then some v2 else lookupKV r k

namespace Deserializer

mutual

/-- From `Deserializer::value`: skip whitespace, read one token, dispatch.
The Rust functions recurse without a bound; `fuel` bounds that recursion
depth in the embedding and every recursive call decrements it.  Whenever the
fuel is generous enough that the `0` case is never reached (as with the
fuel supplied by `parse`), the embedding computes exactly the Rust result. -/
def value : Nat → List Char → Except Error (Option Value) × List Char
  | 0, l => (Except.error Error.SomethingError, l)
  | Nat.succ fuel, l =>
    match Tokenizer.next ((Tokenizer.eat_whitespaces l).2) with
    | (Except.error e, l2) => (Except.error e, l2)
    | (Except.ok (some Token.LeftBrace), l2) => object fuel l2
    | (Except.ok (some Token.LeftBracket), l2) => array fuel l2
    | (Except.ok (some (Token.String s)), l2) => (Except.ok (some (Value.String s)), l2)
    | (Except.ok (some (Token.Number s)), l2) => (Except.ok (some (Value.Number s)), l2)
    | (Except.ok (some (Token.Bool b)), l2) => (Except.ok (some (Value.Bool b)), l2)
    | (Except.ok (some Token.Null), l2) => (Except.ok (some Value.Null), l2)
    | (Except.ok _, l2) => (Except.error Error.InvalidToken, l2)

/-- From `Deserializer::object`, entered after the `{` was consumed: the
empty-object check (note: with no whitespace skipping before it), then the
member loop. -/
def object : Nat → List Char → Except Error (Option Value) × List Char
  | 0, l => (Except.error Error.SomethingError, l)
  | Nat.succ fuel, l =>
    match Tokenizer.eat_token Token.RightBrace l with
    | (true, l1) => (Except.ok (some (Value.Object [])), l1)
    | (false, _) => objectLoop fuel [] l

/-- The `loop` of `Deserializer::object`: every exit that is not a
successful return or a comma continuation breaks to `Err(InvalidToken)`. -/
def objectLoop : Nat → List (List Char × Value) → List Char → Except Error (Option Value) × List Char
  | 0, _, l => (Except.error Error.SomethingError, l)
  | Nat.succ fuel, obj, l =>
    match Tokenizer.next ((Tokenizer.eat_whitespaces l).2) with
    | (Except.error e, l2) => (Except.error e, l2)
    | (Except.ok (some (Token.String key)), l2) =>
      match Tokenizer.eat_token Token.Colon ((Tokenizer.eat_whitespaces l2).2) with
      | (false, l4) => (Except.error Error.InvalidToken, l4)
      | (true, l4) =>
        match value fuel ((Tokenizer.eat_whitespaces l4).2) with
        | (Except.error e, l6) => (Except.error e, l6)
        | (Except.ok none, l6) => (Except.error Error.InvalidToken, l6)
        | (Except.ok (some v), l6) =>
          match Tokenizer.eat_token Token.RightBrace ((Tokenizer.eat_whitespaces l6).2) with
          | (true, l8) => (Except.ok (some (Value.Object (insertKV obj key v))), l8)
          | (false, l8) =>
            match Tokenizer.eat_token Token.Comma l8 with
            | (true, l9) => objectLoop fuel (insertKV obj key v) l9
            | (false, l9) => (Except.error Error.InvalidToken, l9)
    | (Except.ok _, l2) => (Except.error Error.InvalidToken, l2)

/-- From `Deserializer::array`, entered after the `[` was consumed: skip
whitespace, the empty-array check, then the element loop. -/
def array : Nat → List Char → Except Error (Option Value) × List Char
  | 0, l => (Except.error Error.SomethingError, l)
  | Nat.succ fuel, l =>
    match Tokenizer.eat_token Token.RightBracket ((Tokenizer.eat_whitespaces l).2) with
    | (true, l2) => (Except.ok (some (Value.Array [])), l2)
    | (false, _) => arrayLoop fuel [] ((Tokenizer.eat_whitespaces l).2)

/-- The `loop` of `Deserializer::array`. -/
def arrayLoop : Nat → List Value → List Char → Except Error (Option Value) × List Char
  | 0, _, l => (Except.error Error.SomethingError, l)
  | Nat.succ fuel, acc, l =>
    match value fuel ((Tokenizer.eat_whitespaces l).2) with
    | (Except.error e, l2) => (Except.error e, l2)
    | (Except.ok none, l2) => (Except.error Error.InvalidToken, l2)
    | (Except.ok (some v), l2) =>
      match Tokenizer.eat_token Token.RightBracket ((Tokenizer.eat_whitespaces l2).2) with
      | (true, l4) => (Except.ok (some (Value.Array (acc ++ [v]))), l4)
      | (false, l4) =>
        match Tokenizer.eat_token Token.Comma l4 with
        | (true, l5) => arrayLoop fuel (acc ++ [v]) l5
        | (false, l5) => (Except.error Error.InvalidToken, l5)

end

/-- From `Deserializer::parse` (which just calls `value`).  The supplied
fuel `4 * length + 16` strictly dominates the recursion depth the Rust code
reaches on the input, since every three consecutive fuel decrements consume
at least one input character. -/
def parse (l : List Char) : Except Error (Option Value) × List Char :=
  value (4 * l.length + 16) l

end Deserializer

/-
Claim-side predicates.  These formalise the properties the specification
states; they are written from the claims, not from the code, and are only
compared with the output of the embedded functions by the theorems below.
-/

/-- Drops a maximal leading run of decimal digits (used by the grammar
checkers below to walk over a digit run). -/
def dropDigits : List Char → List Char
  | [] => []
  | c :: r => if c.isDigit then dropDigits r else c :: r

/-- Holds when the list does not start with a decimal digit. -/
def noDigitHead : List Char → Bool
  | [] => true
  | c :: _ => !c.isDigit

/-- Strict JSON exponent rest for the claimed number grammar: `e`/`E`,
optional sign, then a non-empty digit run ending the text. -/
def numTailExp (l : List Char) : Bool :=
  match l with
  | [] => true
  | c :: r =>
    if c = 'e' ∨ c = 'E' then
      match r with
      | [] => false
      | c2 :: r2 =>
        if c2 = '+' ∨ c2 = '-' then
          match r2 with
          | [] => false
          | c3 :: r3 => c3.isDigit && (dropDigits r3).isEmpty
        else c2.isDigit && (dropDigits r2).isEmpty
    else false

/-- Strict JSON fraction-then-exponent rest for the claimed number grammar:
an optional `.` followed by a non-empty digit run, then `numTailExp`. -/
def numTail (l : List Char) : Bool :=
  match l with
  | [] => true
  | c :: r =>
    if c = '.' then
      match r with
      | [] => false
      | c2 :: r2 => c2.isDigit && numTailExp (dropDigits r2)
    else numTailExp (c :: r)

/-- The JSON number grammar exactly as claim C1 states it: optional leading
`-`, integer part either `0` or a non-empty digit run with no leading zero,
optional `.` + non-empty digit run, optional `e`/`E` + optional sign +
non-empty digit run. -/
def jsonNumberGrammar (t : List Char) : Bool :=
  let t1 : List Char :=
    match t with
    | c :: r => if c = '-' then r else c :: r
    | [] => []
  match t1 with
  | [] => false
  | c :: r =>
    if c = '0' then numTail r
    else if c.isDigit then numTail (dropDigits r)
    else false

/-- Relaxed exponent rest: the digit run may also be empty when the token
text ends right after the `e`/`E` or the sign (input exhausted there). -/
def shapeExpTail (l : List Char) : Bool :=
  match l with
  | [] => true
  | c :: r =>
    if c = '+' ∨ c = '-' then
      match r with
      | [] => true
      | c2 :: r2 => c2.isDigit && (dropDigits r2).isEmpty
    else c.isDigit && (dropDigits r).isEmpty

/-- Relaxed exponent part: absent, or `e`/`E` followed by `shapeExpTail`. -/
def shapeExp (l : List Char) : Bool :=
  match l with
  | [] => true
  | c :: r => if c = 'e' ∨ c = 'E' then shapeExpTail r else false

/-- Relaxed fraction part: absent, a bare trailing `.`, or `.` plus a
non-empty digit run and then the relaxed exponent part. -/
def shapeFrac (l : List Char) : Bool :=
  match l with
  | [] => true
  | c :: r =>
    if c = '.' then
      match r with
      | [] => true
      | c2 :: r2 => c2.isDigit && shapeExp (dropDigits r2)
    else false

/-- Relaxed integer part: `0`, or a digit run with no leading zero, or (only
when a minus sign was present) empty. -/
def shapeInt (l : List Char) (signed : Bool) : Bool :=
  match l with
  | [] => signed
  | c :: r =>
    if c = '0' then shapeFrac r
    else if c.isDigit then shapeFrac (dropDigits r)
    else signed && shapeFrac (c :: r)

/-- The relaxed number shape that the tokenizer actually guarantees:
optional `-`, then `shapeInt`. -/
def numShape (t : List Char) : Bool :=
  match t with
  | [] => false
  | c :: r => if c = '-' then shapeInt r true else shapeInt (c :: r) false

/-- Is `c` one of the escape successors the string scanner recognizes? -/
def escOk (c : Char) : Bool :=
  c = '"' || c = '\\' || c = '/' || c = 'b' || c = 'f' || c = 'n' || c = 'r' || c = 't'

/-- Claim C4 hypothesis: the string scan on this rest-of-input reaches the
end of the input, finding no unescaped closing quote and no unrecognized
escape successor on the way (a final lone backslash is allowed). -/
def unterminated : List Char → Bool
  | [] => true
  | c :: r =>
    if c = '"' then false
    else if c = '\\' then
      match r with
      | [] => true
      | c2 :: r2 => escOk c2 && unterminated r2
    else unterminated r

/-- Does the string scan on this rest-of-input end with a lone backslash
that begins an escape sequence cut off by the end of the input? -/
def endsMidEscape : List Char → Bool
  | [] => false
  | c :: r =>
    if c = '"' then false
    else if c = '\\' then
      match r with
      | [] => true
      | _ :: r2 => endsMidEscape r2
    else endsMidEscape r

/-
General lemmas about the embedded tokenizer.
-/

theorem digitsLoop_cons_digit (c : Char) (r : List Char) (h : c.isDigit = true) :
    Tokenizer.digitsLoop (c :: r) =
      (c :: (Tokenizer.digitsLoop r).1, (Tokenizer.digitsLoop r).2) := by
  simp [Tokenizer.digitsLoop, h]

theorem digitsLoop_cons_nondigit (c : Char) (r : List Char) (h : c.isDigit = false) :
    Tokenizer.digitsLoop (c :: r) = ([], c :: r) := by
  simp [Tokenizer.digitsLoop, h]

theorem digitsLoop_all (l : List Char) : (Tokenizer.digitsLoop l).1.all Char.isDigit = true := by
  induction l with
  | nil => rfl
  | cons c r ih =>
    by_cases h : c.isDigit
    · simp [Tokenizer.digitsLoop, h, ih]
    · simp [Tokenizer.digitsLoop, h]

theorem digitsLoop_append (l : List Char) :
    (Tokenizer.digitsLoop l).1 ++ (Tokenizer.digitsLoop l).2 = l := by
  induction l with
  | nil => rfl
  | cons c r ih =>
    by_cases h : c.isDigit
    · simp [Tokenizer.digitsLoop, h, ih]
    · simp [Tokenizer.digitsLoop, h]

theorem digitsLoop_head (l : List Char) : noDigitHead (Tokenizer.digitsLoop l).2 = true := by
  induction l with
  | nil => rfl
  | cons c r ih =>
    by_cases h : c.isDigit
    · simpa [Tokenizer.digitsLoop, h] using ih
    · simp [Tokenizer.digitsLoop, h, noDigitHead]

theorem dropDigits_run (run l : List Char) (h : run.all Char.isDigit = true) :
    dropDigits (run ++ l) = dropDigits l := by
  induction run with
  | nil => rfl
  | cons c r ih =>
    simp only [List.all_cons, Bool.and_eq_true] at h
    simp [dropDigits, h.1, ih h.2]

theorem dropDigits_id (l : List Char) (h : noDigitHead l = true) : dropDigits l = l := by
  cases l with
  | nil => rfl
  | cons c r =>
    simp only [noDigitHead, Bool.not_eq_true'] at h
    simp [dropDigits, h]

/-
Shape lemmas assembling `numShape` from the pieces the number scanner
produces.
-/

theorem shapeInt_done (TAIL : List Char) (h1 : shapeFrac TAIL = true)
    (h2 : noDigitHead TAIL = true) : shapeInt TAIL true = true := by
  cases TAIL with
  | nil => rfl
  | cons c r =>
    simp only [noDigitHead, Bool.not_eq_true'] at h2
    have hc0 : c ≠ '0' := by rintro rfl; exact absurd h2 (by decide)
    simp [shapeInt, hc0, h2, h1]

theorem shapeInt_run (d : Char) (r3 TAIL : List Char) (b : Bool) (hd : d.isDigit = true)
    (h0 : d ≠ '0') (hr3 : r3.all Char.isDigit = true) (h1 : shapeFrac TAIL = true)
    (h2 : noDigitHead TAIL = true) : shapeInt (d :: (r3 ++ TAIL)) b = true := by
  simp only [shapeInt]
  rw [if_neg h0, if_pos hd, dropDigits_run r3 TAIL hr3, dropDigits_id TAIL h2]
  exact h1

theorem numShape_minusZero (TAIL : List Char) (h1 : shapeFrac TAIL = true) :
    numShape ('-' :: '0' :: TAIL) = true := by
  simp [numShape, shapeInt, h1]

theorem numShape_zero (TAIL : List Char) (h1 : shapeFrac TAIL = true) :
    numShape ('0' :: TAIL) = true := by
  simp [numShape, shapeInt, h1]

theorem numShape_minusNil (TAIL : List Char) (h1 : shapeFrac TAIL = true)
    (h2 : noDigitHead TAIL = true) : numShape ('-' :: TAIL) = true := by
  simp only [numShape]
  rw [if_pos trivial]
  exact shapeInt_done TAIL h1 h2

/-- The integer phase entered from `next` (head character a digit or `-`)
always succeeds, and whatever well-shaped fraction/exponent tail follows it,
the assembled text satisfies `numShape`. -/
theorem integer_build (c : Char) (r : List Char) (hc : c.isDigit = true ∨ c = '-') :
    ∃ i l1, Tokenizer.integer (c :: r) = (Except.ok (some (Token.Integer i)), l1) ∧
      ∀ TAIL, shapeFrac TAIL = true → noDigitHead TAIL = true →
        numShape (i ++ TAIL) = true := by
  by_cases hm : c = '-'
  · subst hm
    cases r with
    | nil =>
      refine ⟨['-'], [], by simp [Tokenizer.integer, Tokenizer.integerAfterSign], ?_⟩
      intro TAIL h1 h2
      exact numShape_minusNil TAIL h1 h2
    | cons c1 r1 =>
      by_cases h0 : c1 = '0'
      · subst h0
        refine ⟨['-', '0'], r1, by simp [Tokenizer.integer, Tokenizer.integerAfterSign], ?_⟩
        intro TAIL h1 h2
        exact numShape_minusZero TAIL h1
      · by_cases hd : c1.isDigit
        · refine ⟨'-' :: c1 :: (Tokenizer.digitsLoop r1).1, (Tokenizer.digitsLoop r1).2, ?_, ?_⟩
          · simp [Tokenizer.integer, Tokenizer.integerAfterSign, h0,
              digitsLoop_cons_digit c1 r1 hd]
          · intro TAIL h1 h2
            simp only [List.cons_append, numShape]
            rw [if_pos trivial]
            exact shapeInt_run c1 (Tokenizer.digitsLoop r1).1 TAIL true hd h0
              (digitsLoop_all r1) h1 h2
        · refine ⟨['-'], c1 :: r1, ?_, ?_⟩
          · simp [Tokenizer.integer, Tokenizer.integerAfterSign, h0,
              digitsLoop_cons_nondigit c1 r1 (by simpa using hd)]
          · intro TAIL h1 h2
            exact numShape_minusNil TAIL h1 h2
  · have hcd : c.isDigit = true := hc.resolve_right hm
    by_cases h0 : c = '0'
    · subst h0
      refine ⟨['0'], r, by simp [Tokenizer.integer, Tokenizer.integerAfterSign], ?_⟩
      intro TAIL h1 h2
      exact numShape_zero TAIL h1
    · refine ⟨c :: (Tokenizer.digitsLoop r).1, (Tokenizer.digitsLoop r).2, ?_, ?_⟩
      · simp [Tokenizer.integer, Tokenizer.integerAfterSign, hm, h0,
          digitsLoop_cons_digit c r hcd]
      · intro TAIL h1 h2
        simp only [List.cons_append, numShape]
        rw [if_neg hm]
        exact shapeInt_run c (Tokenizer.digitsLoop r).1 TAIL false hcd h0
          (digitsLoop_all r) h1 h2

/-- Case analysis of a successful `fraction` call. -/
theorem fraction_ok (l f rest : List Char)
    (h : Tokenizer.fraction l = (Except.ok (some (Token.Fraction f)), rest)) :
    (l = [] ∧ f = [] ∧ rest = []) ∨
      ∃ c2 r2, l = c2 :: r2 ∧ c2.isDigit = true ∧ f = c2 :: (Tokenizer.digitsLoop r2).1 ∧
        rest = (Tokenizer.digitsLoop r2).2 := by
  cases l with
  | nil =>
    left
    simp only [Tokenizer.fraction, Prod.mk.injEq, Except.ok.injEq, Option.some.injEq,
      Token.Fraction.injEq] at h
    exact ⟨rfl, h.1.symm, h.2.symm⟩
  | cons c2 r2 =>
    right
    by_cases hd : c2.isDigit
    · refine ⟨c2, r2, rfl, hd, ?_⟩
      simp only [Tokenizer.fraction, if_pos hd, Prod.mk.injEq, Except.ok.injEq,
        Option.some.injEq, Token.Fraction.injEq] at h
      exact ⟨h.1.symm, h.2.symm⟩
    · simp [Tokenizer.fraction, hd] at h

/-- A successful exponent scan after the sign yields a `shapeExpTail` text. -/
theorem exponentAfterSign_shape (sign l x rest : List Char)
    (hs : sign = [] ∨ sign = ['+'] ∨ sign = ['-'])
    (h : Tokenizer.exponentAfterSign sign l = (Except.ok (some (Token.Exponent x)), rest)) :
    shapeExpTail x = true := by
  rcases hF : Tokenizer.fraction l with ⟨resf, l3⟩
  simp only [Tokenizer.exponentAfterSign, hF] at h
  cases resf with
  | error e => simp at h
  | ok o =>
    cases o with
    | none => simp at h
    | some tok =>
      cases tok <;> simp at h
      rename_i f
      obtain ⟨h1, h2⟩ := h
      subst h1
      rcases fraction_ok l f l3 hF with ⟨_, rfl, _⟩ | ⟨c2, r2, _, hd, rfl, _⟩
      · rcases hs with rfl | rfl | rfl <;> decide
      · have hde : (dropDigits (Tokenizer.digitsLoop r2).1).isEmpty = true := by
          have hh := dropDigits_run (Tokenizer.digitsLoop r2).1 [] (digitsLoop_all r2)
          simp only [List.append_nil] at hh
          simp [hh, dropDigits]
        rcases hs with rfl | rfl | rfl
        · have hp : ¬(c2 = '+' ∨ c2 = '-') := by
            rintro (rfl | rfl) <;> exact absurd hd (by decide)
          simp [shapeExpTail, hp, hd, hde]
        · simp [shapeExpTail, hd, hde]
        · simp [shapeExpTail, hd, hde]

/-- A successful `exponent` call yields a `shapeExpTail` text. -/
theorem exponent_shape (l4 x rest : List Char)
    (h : Tokenizer.exponent l4 = (Except.ok (some (Token.Exponent x)), rest)) :
    shapeExpTail x = true := by
  cases l4 with
  | nil =>
    simp only [Tokenizer.exponent] at h
    exact exponentAfterSign_shape [] [] x rest (Or.inl rfl) h
  | cons c4 r4 =>
    by_cases hs : c4 = '-' ∨ c4 = '+'
    · simp only [Tokenizer.exponent, if_pos hs] at h
      rcases hs with rfl | rfl
      · exact exponentAfterSign_shape ['-'] r4 x rest (Or.inr (Or.inr rfl)) h
      · exact exponentAfterSign_shape ['+'] r4 x rest (Or.inr (Or.inl rfl)) h
    · simp only [Tokenizer.exponent, if_neg hs] at h
      exact exponentAfterSign_shape [] (c4 :: r4) x rest (Or.inl rfl) h

/-- The exponent phase of the number scanner appends a well-shaped exponent
part (possibly empty) onto the text built so far. -/
theorem numberExp_shape (v l3 t rest : List Char)
    (h : Tokenizer.numberExp v l3 = (Except.ok (some (Token.Number t)), rest)) :
    ∃ E, t = v ++ E ∧ shapeExp E = true ∧ noDigitHead E = true := by
  cases l3 with
  | nil =>
    simp only [Tokenizer.numberExp, Prod.mk.injEq, Except.ok.injEq, Option.some.injEq,
      Token.Number.injEq] at h
    exact ⟨[], by simp [h.1], rfl, rfl⟩
  | cons c l4 =>
    by_cases he : c = 'e' ∨ c = 'E'
    · rcases hE : Tokenizer.exponent l4 with ⟨res, l5⟩
      simp only [Tokenizer.numberExp, if_pos he, hE] at h
      cases res with
      | error e => simp at h
      | ok o =>
        cases o with
        | none => simp at h
        | some tok =>
          cases tok <;> simp at h
          rename_i x
          obtain ⟨h1, h2⟩ := h
          subst h1
          refine ⟨c :: x, rfl, ?_, ?_⟩
          · simp only [shapeExp]
            rw [if_pos he]
            exact exponent_shape l4 x l5 hE
          · rcases he with rfl | rfl <;> rfl
    · simp only [Tokenizer.numberExp, if_neg he, Prod.mk.injEq, Except.ok.injEq,
        Option.some.injEq, Token.Number.injEq] at h
      exact ⟨[], by simp [h.1], rfl, rfl⟩

/-- The fraction-then-exponent phase of the number scanner appends a
well-shaped (relaxed) tail onto the integer part. -/
theorem numberTail_shape (i l1 t rest : List Char)
    (h : Tokenizer.numberTail i l1 = (Except.ok (some (Token.Number t)), rest)) :
    ∃ TAIL, t = i ++ TAIL ∧ shapeFrac TAIL = true ∧ noDigitHead TAIL = true := by
  cases l1 with
  | nil =>
    simp only [Tokenizer.numberTail, Prod.mk.injEq, Except.ok.injEq, Option.some.injEq,
      Token.Number.injEq] at h
    exact ⟨[], by simp [h.1], rfl, rfl⟩
  | cons c l2 =>
    by_cases hdot : c = '.'
    · rcases hF : Tokenizer.fraction l2 with ⟨resf, l3⟩
      simp only [Tokenizer.numberTail, if_pos hdot, hF] at h
      cases resf with
      | error e => simp at h
      | ok o =>
        cases o with
        | none => simp at h
        | some tok =>
          cases tok <;> simp at h
          rename_i f
          rcases fraction_ok l2 f l3 hF with ⟨_, rfl, rfl⟩ | ⟨c2, r2, _, hd, rfl, rfl⟩
          · simp only [Tokenizer.numberExp, Prod.mk.injEq, Except.ok.injEq, Option.some.injEq,
              Token.Number.injEq] at h
            refine ⟨['.'], ?_, by decide, by decide⟩
            simp [h.1]
          · obtain ⟨E, hE1, hE2, hE3⟩ :=
              numberExp_shape (i ++ '.' :: c2 :: (Tokenizer.digitsLoop r2).1)
                (Tokenizer.digitsLoop r2).2 t rest h
            subst hE1
            refine ⟨'.' :: c2 :: ((Tokenizer.digitsLoop r2).1 ++ E), by simp, ?_, rfl⟩
            have hfr : shapeFrac ('.' :: c2 :: ((Tokenizer.digitsLoop r2).1 ++ E)) =
                (c2.isDigit && shapeExp (dropDigits ((Tokenizer.digitsLoop r2).1 ++ E))) := rfl
            rw [hfr, dropDigits_run (Tokenizer.digitsLoop r2).1 E (digitsLoop_all r2),
              dropDigits_id E hE3, hd, hE2]
            rfl
    · simp only [Tokenizer.numberTail, if_neg hdot, Prod.mk.injEq, Except.ok.injEq,
        Option.some.injEq, Token.Number.injEq] at h
      exact ⟨[], by simp [h.1], rfl, rfl⟩

/-- Every `Number` token produced by the number scanner on an input whose
head is a digit or a minus sign has the relaxed number shape. -/
theorem number_numShape (c : Char) (r t rest : List Char) (hc : c.isDigit = true ∨ c = '-')
    (h : Tokenizer.number (c :: r) = (Except.ok (some (Token.Number t)), rest)) :
    numShape t = true := by
  obtain ⟨i, l1, hI, hbuild⟩ := integer_build c r hc
  rw [Tokenizer.number, hI] at h
  simp only [] at h
  obtain ⟨TAIL, ht, h1, h2⟩ := numberTail_shape i l1 t rest h
  subst ht
  exact hbuild TAIL h1 h2

theorem boolean_no_number (l t rest : List Char) :
    Tokenizer.boolean l ≠ (Except.ok (some (Token.Number t)), rest) := by
  intro h
  rcases h1 : Tokenizer.eats ['t', 'r', 'u', 'e'] l with ⟨b1, r1⟩
  simp only [Tokenizer.boolean, h1] at h
  cases b1
  · rcases h2 : Tokenizer.eats ['f', 'a', 'l', 's', 'e'] l with ⟨b2, r2⟩
    rw [h2] at h
    cases b2 <;> simp at h
  · simp at h

theorem null_no_number (l t rest : List Char) :
    Tokenizer.null l ≠ (Except.ok (some (Token.Number t)), rest) := by
  intro h
  rcases h1 : Tokenizer.eats ['n', 'u', 'l', 'l'] l with ⟨b1, r1⟩
  simp only [Tokenizer.null, h1] at h
  cases b1 <;> simp at h

set_option maxHeartbeats 1000000 in
/-- Claim C1 (amended).  Whenever `next` returns a `Number` token, the text
satisfies the relaxed number shape `numShape`: optional leading `-`; an
integer part that is `0` or a digit run with no leading zero, and which may
be empty only when the `-` is present; an optional `.` whose digit run may
be empty only when the token ends right there; and an optional `e`/`E` with
optional sign whose digit run may likewise be empty only at the end of the
token.  The strict grammar of the original claim fails (see the
counterexample). -/
theorem spec_C1 (l t rest : List Char)
    (h : Tokenizer.next l = (Except.ok (some (Token.Number t)), rest)) :
    numShape t = true := by
  cases l with
  | nil =>
    simp only [Tokenizer.next, Prod.mk.injEq, reduceCtorEq, false_and] at h
  | cons c r =>
    simp only [Tokenizer.next] at h
    split_ifs at h with h1 h2 h3 h4 h5 h6 h7 h8 h9 h10
    · simp only [Prod.mk.injEq, Except.ok.injEq, Option.some.injEq, reduceCtorEq,
        false_and] at h
    · simp only [Prod.mk.injEq, Except.ok.injEq, Option.some.injEq, reduceCtorEq,
        false_and] at h
    · simp only [Prod.mk.injEq, Except.ok.injEq, Option.some.injEq, reduceCtorEq,
        false_and] at h
    · simp only [Prod.mk.injEq, Except.ok.injEq, Option.some.injEq, reduceCtorEq,
        false_and] at h
    · simp only [Prod.mk.injEq, Except.ok.injEq, Option.some.injEq, reduceCtorEq,
        false_and] at h
    · simp only [Prod.mk.injEq, Except.ok.injEq, Option.some.injEq, reduceCtorEq,
        false_and] at h
    · rcases hS : Tokenizer.stringLoop r with ⟨res, st⟩
      simp only [Tokenizer.string, if_pos h7, hS] at h
      cases res <;>
        simp only [Prod.mk.injEq, Except.ok.injEq, Option.some.injEq, reduceCtorEq,
          false_and] at h
    · exact number_numShape c r t rest h8 h
    · exact absurd h (boolean_no_number (c :: r) t rest)
    · exact absurd h (null_no_number (c :: r) t rest)
    · simp only [Prod.mk.injEq, reduceCtorEq, false_and] at h

/-- Claim C1 counterexample: on the input `-` the tokenizer succeeds with a
`Number` token whose text is `-` alone, which the claimed JSON number
grammar rejects. -/
theorem spec_C1_counterexample :
    Tokenizer.next ['-'] = (Except.ok (some (Token.Number ['-'])), []) ∧
      jsonNumberGrammar ['-'] = false := by
  constructor <;> rfl

/-- Witness for `spec_C1` at the concrete input `1.`. -/
theorem spec_C1_witness :
    Tokenizer.next ['1', '.'] = (Except.ok (some (Token.Number ['1', '.'])), []) ∧
      numShape ['1', '.'] = true :=
  ⟨by rfl, spec_C1 ['1', '.'] ['1', '.'] [] (by rfl)⟩

/-- Claim C3 (amended).  When a character follows the consumed `.`, the
fraction phase requires it to be a digit: a non-digit fails with
`InvalidNumber` (consuming nothing), a digit starts a maximal digit run.
But when the input ends right after the `.`, the fraction phase succeeds
with an empty digit run instead of failing, so number scanning on the input
`1.` returns the `Number` token `1.` rather than `InvalidNumber`. -/
theorem spec_C3 :
    (∀ c r, c.isDigit = false →
        Tokenizer.fraction (c :: r) = (Except.error Error.InvalidNumber, c :: r)) ∧
      (∀ c r, c.isDigit = true →
        ∃ run rest, Tokenizer.fraction (c :: r) =
              (Except.ok (some (Token.Fraction (c :: run))), rest) ∧
            run ++ rest = r ∧ run.all Char.isDigit = true ∧ noDigitHead rest = true) ∧
      Tokenizer.fraction [] = (Except.ok (some (Token.Fraction [])), []) ∧
      Tokenizer.next ['1', '.'] = (Except.ok (some (Token.Number ['1', '.'])), []) := by
  refine ⟨?_, ?_, rfl, by rfl⟩
  · intro c r h
    simp [Tokenizer.fraction, h]
  · intro c r h
    exact ⟨(Tokenizer.digitsLoop r).1, (Tokenizer.digitsLoop r).2,
      by simp [Tokenizer.fraction, h], digitsLoop_append r, digitsLoop_all r,
      digitsLoop_head r⟩

/-- Claim C3 counterexample: a `.` as the last character of the input does
not make number scanning fail with `InvalidNumber`; it succeeds. -/
theorem spec_C3_counterexample :
    Tokenizer.next ['1', '.'] = (Except.ok (some (Token.Number ['1', '.'])), []) ∧
      Except.ok (some (Token.Number ['1', '.'])) ≠
        (Except.error Error.InvalidNumber : Except Error (Option Token)) :=
  ⟨by rfl, fun hx => Except.noConfusion hx⟩

/-- Witness for `spec_C3` at the concrete inputs `x` and `5a`. -/
theorem spec_C3_witness :
    Tokenizer.fraction ['x'] = (Except.error Error.InvalidNumber, ['x']) ∧
      ∃ run rest, Tokenizer.fraction ['5', 'a'] =
          (Except.ok (some (Token.Fraction ('5' :: run))), rest) ∧
        run ++ rest = ['a'] ∧ run.all Char.isDigit = true ∧ noDigitHead rest = true :=
  ⟨spec_C3.1 'x' [] (by decide), spec_C3.2.1 '5' ['a'] (by decide)⟩

/-
String-scan lemmas for claims C4 and C9.
-/

theorem pushChar_fst (c : Char) (p : Except Error (List Char) × List Char) :
    (Tokenizer.pushChar c p).1 =
      match p.1 with
      | Except.ok v => Except.ok (c :: v)
      | Except.error e => Except.error e := by
  rcases p with ⟨res, st⟩
  cases res <;> rfl

theorem pushChar_fst_error (c : Char) (p : Except Error (List Char) × List Char) (e : Error)
    (h : p.1 = Except.error e) : (Tokenizer.pushChar c p).1 = Except.error e := by
  rw [pushChar_fst, h]

theorem stringLoop_cons_plain (c : Char) (r : List Char) (h1 : ¬c = '\\') (h2 : ¬c = '"') :
    Tokenizer.stringLoop (c :: r) = Tokenizer.pushChar c (Tokenizer.stringLoop r) := by
  rw [Tokenizer.stringLoop.eq_def]
  dsimp only
  rw [if_neg h1, if_neg h2]

theorem unterminated_cons_plain (c : Char) (r : List Char) (h1 : ¬c = '\\') (h2 : ¬c = '"') :
    unterminated (c :: r) = unterminated r := by
  rw [unterminated.eq_def]
  dsimp only
  rw [if_neg h2, if_neg h1]

theorem endsMidEscape_cons_plain (c : Char) (r : List Char) (h1 : ¬c = '\\') (h2 : ¬c = '"') :
    endsMidEscape (c :: r) = endsMidEscape r := by
  rw [endsMidEscape.eq_def]
  dsimp only
  rw [if_neg h2, if_neg h1]

/-- On an input whose scan reaches the end of the input, the string loop
fails: with `InvalidEscapeChar` when the input ends right after a backslash,
with `EOF` otherwise. -/
theorem stringLoop_unterminated (l : List Char) (h : unterminated l = true) :
    (Tokenizer.stringLoop l).1 =
      Except.error (if endsMidEscape l then Error.InvalidEscapeChar else Error.EOF) := by
  induction l using Tokenizer.stringLoop.induct with
  | case1 => rfl
  | case2 => rfl
  | case3 r ih =>
    have h' : unterminated r = true := by simpa [unterminated, escOk] using h
    rw [show Tokenizer.stringLoop ('\\' :: '"' :: r) =
        Tokenizer.pushChar '"' (Tokenizer.stringLoop r) from rfl,
      show endsMidEscape ('\\' :: '"' :: r) = endsMidEscape r from rfl]
    exact pushChar_fst_error _ _ _ (ih h')
  | case4 r hne ih =>
    have h' : unterminated r = true := by simpa [unterminated, escOk] using h
    rw [show Tokenizer.stringLoop ('\\' :: '\\' :: r) =
        Tokenizer.pushChar '\\' (Tokenizer.stringLoop r) from rfl,
      show endsMidEscape ('\\' :: '\\' :: r) = endsMidEscape r from rfl]
    exact pushChar_fst_error _ _ _ (ih h')
  | case5 r hne1 hne2 ih =>
    have h' : unterminated r = true := by simpa [unterminated, escOk] using h
    rw [show Tokenizer.stringLoop ('\\' :: '/' :: r) =
        Tokenizer.pushChar '/' (Tokenizer.stringLoop r) from rfl,
      show endsMidEscape ('\\' :: '/' :: r) = endsMidEscape r from rfl]
    exact pushChar_fst_error _ _ _ (ih h')
  | case6 r hne1 hne2 hne3 ih =>
    have h' : unterminated r = true := by simpa [unterminated, escOk] using h
    rw [show Tokenizer.stringLoop ('\\' :: 'b' :: r) =
        Tokenizer.pushChar '\x08' (Tokenizer.stringLoop r) from rfl,
      show endsMidEscape ('\\' :: 'b' :: r) = endsMidEscape r from rfl]
    exact pushChar_fst_error _ _ _ (ih h')
  | case7 r hne1 hne2 hne3 hne4 ih =>
    have h' : unterminated r = true := by simpa [unterminated, escOk] using h
    rw [show Tokenizer.stringLoop ('\\' :: 'f' :: r) =
        Tokenizer.pushChar '\x0C' (Tokenizer.stringLoop r) from rfl,
      show endsMidEscape ('\\' :: 'f' :: r) = endsMidEscape r from rfl]
    exact pushChar_fst_error _ _ _ (ih h')
  | case8 r hne1 hne2 hne3 hne4 hne5 ih =>
    have h' : unterminated r = true := by simpa [unterminated, escOk] using h
    rw [show Tokenizer.stringLoop ('\\' :: 'n' :: r) =
        Tokenizer.pushChar '\n' (Tokenizer.stringLoop r) from rfl,
      show endsMidEscape ('\\' :: 'n' :: r) = endsMidEscape r from rfl]
    exact pushChar_fst_error _ _ _ (ih h')
  | case9 r hne1 hne2 hne3 hne4 hne5 hne6 ih =>
    have h' : unterminated r = true := by simpa [unterminated, escOk] using h
    rw [show Tokenizer.stringLoop ('\\' :: 'r' :: r) =
        Tokenizer.pushChar '\r' (Tokenizer.stringLoop r) from rfl,
      show endsMidEscape ('\\' :: 'r' :: r) = endsMidEscape r from rfl]
    exact pushChar_fst_error _ _ _ (ih h')
  | case10 r hne1 hne2 hne3 hne4 hne5 hne6 hne7 ih =>
    have h' : unterminated r = true := by simpa [unterminated, escOk] using h
    rw [show Tokenizer.stringLoop ('\\' :: 't' :: r) =
        Tokenizer.pushChar '\t' (Tokenizer.stringLoop r) from rfl,
      show endsMidEscape ('\\' :: 't' :: r) = endsMidEscape r from rfl]
    exact pushChar_fst_error _ _ _ (ih h')
  | case11 c r hne1 hne2 hne3 hne4 hne5 hne6 hne7 hne8 =>
    exfalso
    have hesc : escOk c = false := by
      simp [escOk, hne1, hne2, hne3, hne4, hne5, hne6, hne7, hne8]
    rw [show unterminated ('\\' :: c :: r) = (escOk c && unterminated r) from rfl, hesc] at h
    simp at h
  | case12 r hne =>
    rw [unterminated.eq_def] at h
    dsimp only at h
    rw [if_pos rfl] at h
    exact Bool.noConfusion h
  | case13 c r hne1 hne2 ih =>
    have h' : unterminated r = true := by rwa [unterminated_cons_plain c r hne1 hne2] at h
    rw [stringLoop_cons_plain c r hne1 hne2, endsMidEscape_cons_plain c r hne1 hne2]
    exact pushChar_fst_error _ _ _ (ih h')

/-- Claim C4 (amended).  On an input whose next character is `"`, if the
string scan reaches the end of the input before an unescaped closing quote
(all escapes on the way being recognized), `next` fails — with
`InvalidEscapeChar` when the last character is a backslash beginning an
escape sequence (the same error as for an unrecognized escape), and with
`EOF` otherwise; the claimed uniform `EOF` is wrong for the trailing
backslash, see the counterexample. -/
theorem spec_C4 (l : List Char) (h : unterminated l = true) :
    (Tokenizer.next ('"' :: l)).1 =
      Except.error (if endsMidEscape l then Error.InvalidEscapeChar else Error.EOF) := by
  have hs := stringLoop_unterminated l h
  rw [show Tokenizer.next ('"' :: l) = Tokenizer.string ('"' :: l) from rfl]
  rcases hS : Tokenizer.stringLoop l with ⟨res, st⟩
  rw [hS] at hs
  simp only [Tokenizer.string]
  rw [if_pos trivial, hS]
  cases res with
  | error e => simpa using hs
  | ok v => simp at hs

/-- Claim C4 counterexample: the input `"a\` (ending in a backslash that
begins an escape sequence) makes `next` fail with `InvalidEscapeChar`, not
with the claimed `EOF`. -/
theorem spec_C4_counterexample :
    (Tokenizer.next ['"', 'a', '\\']).1 = Except.error Error.InvalidEscapeChar ∧
      Error.InvalidEscapeChar ≠ Error.EOF :=
  ⟨by rfl, fun hx => Error.noConfusion hx⟩

/-- Witness for `spec_C4` at the concrete unterminated input `"ab`. -/
theorem spec_C4_witness :
    unterminated ['a', 'b'] = true ∧
      (Tokenizer.next ['"', 'a', 'b']).1 =
        Except.error (if endsMidEscape ['a', 'b'] then Error.InvalidEscapeChar else Error.EOF) :=
  ⟨by decide, spec_C4 ['a', 'b'] (by decide)⟩

/-- Claim C7.  When the next character is `t`, `f` or `n` but the following
characters do not spell `true`, `false` or `null`, `next` fails with
`InvalidToken` and the remaining input is unchanged: no characters are
consumed by the failed call. -/
theorem spec_C7 (c : Char) (l : List Char) (hc : c = 't' ∨ c = 'f' ∨ c = 'n')
    (ht : Tokenizer.litMatch ['t', 'r', 'u', 'e'] (c :: l) = false)
    (hf : Tokenizer.litMatch ['f', 'a', 'l', 's', 'e'] (c :: l) = false)
    (hn : Tokenizer.litMatch ['n', 'u', 'l', 'l'] (c :: l) = false) :
    Tokenizer.next (c :: l) = (Except.error Error.InvalidToken, c :: l) := by
  rcases hc with rfl | rfl | rfl
  · rw [show Tokenizer.next ('t' :: l) = Tokenizer.boolean ('t' :: l) from rfl]
    simp [Tokenizer.boolean, Tokenizer.eats, ht, hf]
  · rw [show Tokenizer.next ('f' :: l) = Tokenizer.boolean ('f' :: l) from rfl]
    simp [Tokenizer.boolean, Tokenizer.eats, ht, hf]
  · rw [show Tokenizer.next ('n' :: l) = Tokenizer.null ('n' :: l) from rfl]
    simp [Tokenizer.null, Tokenizer.eats, hn]

/-- Witness for `spec_C7` at the concrete input `trap`. -/
theorem spec_C7_witness :
    Tokenizer.next ['t', 'r', 'a', 'p'] = (Except.error Error.InvalidToken, ['t', 'r', 'a', 'p']) :=
  spec_C7 't' ['r', 'a', 'p'] (Or.inl rfl) (by decide) (by decide) (by decide)

/-- Claim C8.  On an optional `-`, then `0`, then another digit, integer
scanning stops right after the `0`: `next` succeeds with the `Number` token
`0` (resp. `-0`) and leaves the following digits unconsumed, instead of
failing with `InvalidNumber`. -/
theorem spec_C8 (d : Char) (r : List Char) (h : d.isDigit = true) :
    Tokenizer.next ('0' :: d :: r) = (Except.ok (some (Token.Number ['0'])), d :: r) ∧
      Tokenizer.next ('-' :: '0' :: d :: r) =
        (Except.ok (some (Token.Number ['-', '0'])), d :: r) := by
  have hd : ¬d = '.' := by rintro rfl; exact absurd h (by decide)
  constructor
  · rw [show Tokenizer.next ('0' :: d :: r) = Tokenizer.numberTail ['0'] (d :: r) from rfl]
    simp only [Tokenizer.numberTail]
    rw [if_neg hd]
  · rw [show Tokenizer.next ('-' :: '0' :: d :: r) =
        Tokenizer.numberTail ['-', '0'] (d :: r) from rfl]
    simp only [Tokenizer.numberTail]
    rw [if_neg hd]

/-- Witness for `spec_C8` at the concrete inputs `01` and `-01`. -/
theorem spec_C8_witness :
    Tokenizer.next ['0', '1'] = (Except.ok (some (Token.Number ['0'])), ['1']) ∧
      Tokenizer.next ['-', '0', '1'] = (Except.ok (some (Token.Number ['-', '0'])), ['1']) :=
  spec_C8 '1' [] (by decide)

/-- Claim C2 (code bug in `Deserializer::object`).  The inputs `{}` and
`{ }` contain the same token sequence and differ only in whitespace between
tokens, yet `{}` parses to the empty object while `{ }` fails with
`InvalidToken`: the empty-object check runs without skipping whitespace
first (unlike the corresponding check of `Deserializer::array`). -/
theorem spec_C2 :
    (Deserializer.parse ['{', '}']).1 = Except.ok (some (Value.Object [])) ∧
      (Deserializer.parse ['{', ' ', '}']).1 = Except.error Error.InvalidToken := by
  constructor <;> rfl

/-- Claim C5.  The object literal with a trailing comma, `{"a":1,}`, makes
`parse` fail (with `InvalidToken`) rather than succeed. -/
theorem spec_C5 :
    (Deserializer.parse ['{', '"', 'a', '"', ':', '1', ',', '}']).1 =
      Except.error Error.InvalidToken := by rfl

/-- Claim C6.  The object literal `{"k":1,"k":2}` parses successfully to an
object in which the duplicated key `k` is bound to the `Number` `2`: the
last write wins. -/
theorem spec_C6 :
    (Deserializer.parse ['{', '"', 'k', '"', ':', '1', ',', '"', 'k', '"', ':', '2', '}']).1 =
        Except.ok (some (Value.Object [(['k'], Value.Number ['2'])])) ∧
      lookupKV [(['k'], Value.Number ['2'])] ['k'] = some (Value.Number ['2']) := by
  constructor <;> rfl

theorem pushChar_cases (c : Char) (p : Except Error (List Char) × List Char)
    (h : p.1 = Except.error Error.EOF ∨ p.1 = Except.error Error.InvalidEscapeChar ∨
      ∃ v, p.1 = Except.ok v) :
    (Tokenizer.pushChar c p).1 = Except.error Error.EOF ∨
      (Tokenizer.pushChar c p).1 = Except.error Error.InvalidEscapeChar ∨
      ∃ v, (Tokenizer.pushChar c p).1 = Except.ok v := by
  rw [pushChar_fst]
  rcases h with h | h | ⟨v, h⟩ <;> rw [h]
  · exact Or.inl rfl
  · exact Or.inr (Or.inl rfl)
  · exact Or.inr (Or.inr ⟨_, rfl⟩)

/-- The string-scan loop either succeeds or fails with `EOF` or
`InvalidEscapeChar`; in particular it never produces `InvalidString`. -/
theorem stringLoop_cases (l : List Char) :
    (Tokenizer.stringLoop l).1 = Except.error Error.EOF ∨
      (Tokenizer.stringLoop l).1 = Except.error Error.InvalidEscapeChar ∨
      ∃ v, (Tokenizer.stringLoop l).1 = Except.ok v := by
  induction l using Tokenizer.stringLoop.induct with
  | case1 => exact Or.inl rfl
  | case2 => exact Or.inr (Or.inl rfl)
  | case3 r ih =>
    rw [show Tokenizer.stringLoop ('\\' :: '"' :: r) =
        Tokenizer.pushChar '"' (Tokenizer.stringLoop r) from rfl]
    exact pushChar_cases _ _ ih
  | case4 r hne ih =>
    rw [show Tokenizer.stringLoop ('\\' :: '\\' :: r) =
        Tokenizer.pushChar '\\' (Tokenizer.stringLoop r) from rfl]
    exact pushChar_cases _ _ ih
  | case5 r hne1 hne2 ih =>
    rw [show Tokenizer.stringLoop ('\\' :: '/' :: r) =
        Tokenizer.pushChar '/' (Tokenizer.stringLoop r) from rfl]
    exact pushChar_cases _ _ ih
  | case6 r hne1 hne2 hne3 ih =>
    rw [show Tokenizer.stringLoop ('\\' :: 'b' :: r) =
        Tokenizer.pushChar '\x08' (Tokenizer.stringLoop r) from rfl]
    exact pushChar_cases _ _ ih
  | case7 r hne1 hne2 hne3 hne4 ih =>
    rw [show Tokenizer.stringLoop ('\\' :: 'f' :: r) =
        Tokenizer.pushChar '\x0C' (Tokenizer.stringLoop r) from rfl]
    exact pushChar_cases _ _ ih
  | case8 r hne1 hne2 hne3 hne4 hne5 ih =>
    rw [show Tokenizer.stringLoop ('\\' :: 'n' :: r) =
        Tokenizer.pushChar '\n' (Tokenizer.stringLoop r) from rfl]
    exact pushChar_cases _ _ ih
  | case9 r hne1 hne2 hne3 hne4 hne5 hne6 ih =>
    rw [show Tokenizer.stringLoop ('\\' :: 'r' :: r) =
        Tokenizer.pushChar '\r' (Tokenizer.stringLoop r) from rfl]
    exact pushChar_cases _ _ ih
  | case10 r hne1 hne2 hne3 hne4 hne5 hne6 hne7 ih =>
    rw [show Tokenizer.stringLoop ('\\' :: 't' :: r) =
        Tokenizer.pushChar '\t' (Tokenizer.stringLoop r) from rfl]
    exact pushChar_cases _ _ ih
  | case11 c r hne1 hne2 hne3 hne4 hne5 hne6 hne7 hne8 =>
    right
    left
    rw [Tokenizer.stringLoop.eq_def]
    dsimp only
    rw [if_pos rfl, if_neg hne1, if_neg hne2, if_neg hne3, if_neg hne4, if_neg hne5,
      if_neg hne6, if_neg hne7, if_neg hne8]
  | case12 r hne =>
    rw [Tokenizer.stringLoop.eq_def]
    dsimp only
    rw [if_neg hne, if_pos rfl]
    exact Or.inr (Or.inr ⟨[], rfl⟩)
  | case13 c r hne1 hne2 ih =>
    rw [stringLoop_cons_plain c r hne1 hne2]
    exact pushChar_cases _ _ ih

/-- Results the exponent phase of the number scanner can produce. -/
theorem numberExp_res (v l : List Char) :
    (∃ w, (Tokenizer.numberExp v l).1 = Except.ok (some (Token.Number w))) ∨
      (Tokenizer.numberExp v l).1 = Except.error Error.InvalidNumber := by
  cases l with
  | nil => exact Or.inl ⟨v, rfl⟩
  | cons c l4 =>
    by_cases he : c = 'e' ∨ c = 'E'
    · rcases hE : Tokenizer.exponent l4 with ⟨res, l5⟩
      simp only [Tokenizer.numberExp, if_pos he, hE]
      rcases res with e | o
      · exact Or.inr rfl
      · rcases o with _ | tok
        · exact Or.inr rfl
        · cases tok <;> first
            | exact Or.inr rfl
            | exact Or.inl ⟨_, rfl⟩
    · simp only [Tokenizer.numberExp, if_neg he]
      exact Or.inl ⟨v, rfl⟩

/-- Results the fraction-then-exponent phase can produce. -/
theorem numberTail_res (i l : List Char) :
    (∃ w, (Tokenizer.numberTail i l).1 = Except.ok (some (Token.Number w))) ∨
      (Tokenizer.numberTail i l).1 = Except.error Error.InvalidNumber := by
  cases l with
  | nil => exact Or.inl ⟨i, rfl⟩
  | cons c l2 =>
    by_cases hdot : c = '.'
    · rcases hF : Tokenizer.fraction l2 with ⟨res, l3⟩
      simp only [Tokenizer.numberTail, if_pos hdot, hF]
      rcases res with e | o
      · exact Or.inr rfl
      · rcases o with _ | tok
        · exact Or.inr rfl
        · cases tok <;> first
            | exact Or.inr rfl
            | exact numberExp_res _ _
    · simp only [Tokenizer.numberTail, if_neg hdot]
      exact Or.inl ⟨i, rfl⟩

/-- The integer phase always succeeds with an `Integer` token. -/
theorem integerAfterSign_ok (sign l : List Char) :
    ∃ i l1, Tokenizer.integerAfterSign sign l = (Except.ok (some (Token.Integer i)), l1) := by
  cases l with
  | nil => exact ⟨sign, [], rfl⟩
  | cons c r =>
    by_cases h : c = '0'
    · exact ⟨sign ++ ['0'], r, by simp [Tokenizer.integerAfterSign, h]⟩
    · exact ⟨sign ++ (Tokenizer.digitsLoop (c :: r)).1, (Tokenizer.digitsLoop (c :: r)).2,
        by simp [Tokenizer.integerAfterSign, h]⟩

theorem integer_ok (l : List Char) :
    ∃ i l1, Tokenizer.integer l = (Except.ok (some (Token.Integer i)), l1) := by
  cases l with
  | nil => exact integerAfterSign_ok [] []
  | cons c r =>
    by_cases h : c = '-'
    · simpa [Tokenizer.integer, h] using integerAfterSign_ok ['-'] r
    · simpa [Tokenizer.integer, h] using integerAfterSign_ok [] (c :: r)

/-- Results the number scanner can produce: a `Number` token or the error
`InvalidNumber`. -/
theorem number_res (l : List Char) :
    (∃ w, (Tokenizer.number l).1 = Except.ok (some (Token.Number w))) ∨
      (Tokenizer.number l).1 = Except.error Error.InvalidNumber := by
  obtain ⟨i, l1, hI⟩ := integer_ok l
  rw [Tokenizer.number, hI]
  exact numberTail_res i l1

/-- Results the boolean scanner can produce. -/
theorem boolean_res (l : List Char) :
    (∃ b st, Tokenizer.boolean l = (Except.ok (some (Token.Bool b)), st)) ∨
      Tokenizer.boolean l = (Except.error Error.InvalidToken, l) := by
  rcases h1 : Tokenizer.eats ['t', 'r', 'u', 'e'] l with ⟨b1, r1⟩
  rcases h2 : Tokenizer.eats ['f', 'a', 'l', 's', 'e'] l with ⟨b2, r2⟩
  simp only [Tokenizer.boolean, h1, h2]
  cases b1
  · cases b2
    · exact Or.inr rfl
    · exact Or.inl ⟨false, r2, rfl⟩
  · exact Or.inl ⟨true, r1, rfl⟩

/-- Results the null scanner can produce. -/
theorem null_res (l : List Char) :
    Tokenizer.null l = (Except.ok (some Token.Null), (Tokenizer.eats ['n', 'u', 'l', 'l'] l).2) ∨
      Tokenizer.null l = (Except.error Error.InvalidToken, l) := by
  rcases h1 : Tokenizer.eats ['n', 'u', 'l', 'l'] l with ⟨b1, r1⟩
  simp only [Tokenizer.null, h1]
  cases b1
  · exact Or.inr rfl
  · exact Or.inl rfl

/-- String scanning entered with the opening quote present either returns a
`String` token or fails with an error other than `InvalidString`. -/
theorem string_quote_res (l : List Char) :
    (∃ v st, Tokenizer.string ('"' :: l) = (Except.ok (some (Token.String v)), st)) ∨
      ∃ e st, Tokenizer.string ('"' :: l) = (Except.error e, st) ∧ e ≠ Error.InvalidString := by
  rcases hS : Tokenizer.stringLoop l with ⟨res, st⟩
  have hc := stringLoop_cases l
  rw [hS] at hc
  dsimp only at hc
  simp only [Tokenizer.string]
  rw [if_pos trivial, hS]
  rcases hc with hc | hc | ⟨v, hc⟩
  · subst hc
    exact Or.inr ⟨Error.EOF, st, rfl, fun hx => Error.noConfusion hx⟩
  · subst hc
    exact Or.inr ⟨Error.InvalidEscapeChar, st, rfl, fun hx => Error.noConfusion hx⟩
  · subst hc
    exact Or.inl ⟨v, st, rfl⟩

/-- The public `next` either returns a token or fails with an error other
than `InvalidString`. -/
theorem next_res (l : List Char) :
    (∃ t, (Tokenizer.next l).1 = Except.ok (some t)) ∨
      ∃ e, (Tokenizer.next l).1 = Except.error e ∧ e ≠ Error.InvalidString := by
  cases l with
  | nil => exact Or.inr ⟨Error.EOF, rfl, fun hx => Error.noConfusion hx⟩
  | cons c r =>
    by_cases h1 : c = '{'
    · exact Or.inl ⟨Token.LeftBrace, by simp only [Tokenizer.next]; rw [if_pos h1]⟩
    · by_cases h2 : c = '}'
      · exact Or.inl ⟨Token.RightBrace, by
          simp only [Tokenizer.next]; rw [if_neg h1, if_pos h2]⟩
      · by_cases h3 : c = '['
        · exact Or.inl ⟨Token.LeftBracket, by
            simp only [Tokenizer.next]; rw [if_neg h1, if_neg h2, if_pos h3]⟩
        · by_cases h4 : c = ']'
          · exact Or.inl ⟨Token.RightBracket, by
              simp only [Tokenizer.next]; rw [if_neg h1, if_neg h2, if_neg h3, if_pos h4]⟩
          · by_cases h5 : c = ','
            · exact Or.inl ⟨Token.Comma, by
                simp only [Tokenizer.next]
                rw [if_neg h1, if_neg h2, if_neg h3, if_neg h4, if_pos h5]⟩
            · by_cases h6 : c = ':'
              · exact Or.inl ⟨Token.Colon, by
                  simp only [Tokenizer.next]
                  rw [if_neg h1, if_neg h2, if_neg h3, if_neg h4, if_neg h5, if_pos h6]⟩
              · by_cases h7 : c = '"'
                · have hnx : Tokenizer.next (c :: r) = Tokenizer.string (c :: r) := by
                    simp only [Tokenizer.next]
                    rw [if_neg h1, if_neg h2, if_neg h3, if_neg h4, if_neg h5, if_neg h6,
                      if_pos h7]
                  subst h7
                  rw [hnx]
                  rcases string_quote_res r with ⟨v, st, hh⟩ | ⟨e, st, hh, hne⟩
                  · exact Or.inl ⟨Token.String v, by rw [hh]⟩
                  · exact Or.inr ⟨e, by rw [hh], hne⟩
                · by_cases h8 : c.isDigit = true ∨ c = '-'
                  · have hnx : Tokenizer.next (c :: r) = Tokenizer.number (c :: r) := by
                      simp only [Tokenizer.next]
                      rw [if_neg h1, if_neg h2, if_neg h3, if_neg h4, if_neg h5, if_neg h6,
                        if_neg h7, if_pos h8]
                    rw [hnx]
                    rcases number_res (c :: r) with ⟨w, hh⟩ | hh
                    · exact Or.inl ⟨Token.Number w, hh⟩
                    · exact Or.inr ⟨Error.InvalidNumber, hh, fun hx => Error.noConfusion hx⟩
                  · by_cases h9 : c = 't' ∨ c = 'f'
                    · have hnx : Tokenizer.next (c :: r) = Tokenizer.boolean (c :: r) := by
                        simp only [Tokenizer.next]
                        rw [if_neg h1, if_neg h2, if_neg h3, if_neg h4, if_neg h5, if_neg h6,
                          if_neg h7, if_neg h8, if_pos h9]
                      rw [hnx]
                      rcases boolean_res (c :: r) with ⟨b, st, hh⟩ | hh
                      · exact Or.inl ⟨Token.Bool b, by rw [hh]⟩
                      · exact Or.inr ⟨Error.InvalidToken, by rw [hh],
                          fun hx => Error.noConfusion hx⟩
                    · by_cases h10 : c = 'n'
                      · have hnx : Tokenizer.next (c :: r) = Tokenizer.null (c :: r) := by
                          simp only [Tokenizer.next]
                          rw [if_neg h1, if_neg h2, if_neg h3, if_neg h4, if_neg h5, if_neg h6,
                            if_neg h7, if_neg h8, if_neg h9, if_pos h10]
                        rw [hnx]
                        rcases null_res (c :: r) with hh | hh
                        · exact Or.inl ⟨Token.Null, by rw [hh]⟩
                        · exact Or.inr ⟨Error.InvalidToken, by rw [hh],
                            fun hx => Error.noConfusion hx⟩
                      · refine Or.inr ⟨Error.InvalidToken, ?_, fun hx => Error.noConfusion hx⟩
                        simp only [Tokenizer.next]
                        rw [if_neg h1, if_neg h2, if_neg h3, if_neg h4, if_neg h5, if_neg h6,
                          if_neg h7, if_neg h8, if_neg h9, if_neg h10]

/-- Claim C9.  The public `next` never returns the `InvalidString` error:
string scanning is entered only when the next character is a double quote,
so its opening-quote guard never takes the error branch. -/
theorem spec_C9 (l : List Char) : (Tokenizer.next l).1 ≠ Except.error Error.InvalidString := by
  rcases next_res l with ⟨t, h⟩ | ⟨e, h, hne⟩
  · rw [h]
    exact fun hx => Except.noConfusion hx
  · rw [h]
    intro hx
    injection hx with hx2
    exact hne hx2

/-- For every fuel, none of the parser functions ever returns `Ok(None)`:
every success carries a value, every end-of-input is an error. -/
theorem parser_no_none (fuel : Nat) :
    (∀ l, (Deserializer.value fuel l).1 ≠ Except.ok none) ∧
      (∀ l, (Deserializer.object fuel l).1 ≠ Except.ok none) ∧
      (∀ obj l, (Deserializer.objectLoop fuel obj l).1 ≠ Except.ok none) ∧
      (∀ l, (Deserializer.array fuel l).1 ≠ Except.ok none) ∧
      (∀ acc l, (Deserializer.arrayLoop fuel acc l).1 ≠ Except.ok none) := by
  induction fuel with
  | zero =>
    refine ⟨fun l h => ?_, fun l h => ?_, fun obj l h => ?_, fun l h => ?_, fun acc l h => ?_⟩ <;>
      simp only [Deserializer.value, Deserializer.object, Deserializer.objectLoop,
        Deserializer.array, Deserializer.arrayLoop] at h <;>
      exact Except.noConfusion h
  | succ f ih =>
    obtain ⟨ihv, iho, ihol, iha, ihal⟩ := ih
    refine ⟨?_, ?_, ?_, ?_, ?_⟩
    · intro l h
      rcases hN : Tokenizer.next ((Tokenizer.eat_whitespaces l).2) with ⟨res, l2⟩
      rcases res with e | o
      · simp only [Deserializer.value, hN] at h
        exact Except.noConfusion h
      · rcases o with _ | tok
        · simp only [Deserializer.value, hN] at h
          exact Except.noConfusion h
        · cases tok <;> simp only [Deserializer.value, hN] at h <;>
            first
              | exact iho _ h
              | exact iha _ h
              | exact Except.noConfusion h
              | (injection h with h2; exact Option.noConfusion h2)
    · intro l h
      rcases hT : Tokenizer.eat_token Token.RightBrace l with ⟨b, l1⟩
      cases b <;> simp only [Deserializer.object, hT] at h
      · exact ihol _ _ h
      · injection h with h2
        exact Option.noConfusion h2
    · intro obj l h
      rcases hN : Tokenizer.next ((Tokenizer.eat_whitespaces l).2) with ⟨res, l2⟩
      rcases res with e | o
      · simp only [Deserializer.objectLoop, hN] at h
        exact Except.noConfusion h
      · rcases o with _ | tok
        · simp only [Deserializer.objectLoop, hN] at h
          exact Except.noConfusion h
        · cases tok with
          | String key =>
            rcases hC : Tokenizer.eat_token Token.Colon ((Tokenizer.eat_whitespaces l2).2) with
              ⟨bc, l4⟩
            cases bc
            · simp only [Deserializer.objectLoop, hN, hC] at h
              exact Except.noConfusion h
            · rcases hV : Deserializer.value f ((Tokenizer.eat_whitespaces l4).2) with ⟨resv, l6⟩
              rcases resv with e2 | ov
              · simp only [Deserializer.objectLoop, hN, hC, hV] at h
                exact Except.noConfusion h
              · rcases ov with _ | v
                · simp only [Deserializer.objectLoop, hN, hC, hV] at h
                  exact Except.noConfusion h
                · rcases hB : Tokenizer.eat_token Token.RightBrace
                    ((Tokenizer.eat_whitespaces l6).2) with ⟨bb, l8⟩
                  cases bb
                  · rcases hM : Tokenizer.eat_token Token.Comma l8 with ⟨bm, l9⟩
                    cases bm
                    · simp only [Deserializer.objectLoop, hN, hC, hV, hB, hM] at h
                      exact Except.noConfusion h
                    · simp only [Deserializer.objectLoop, hN, hC, hV, hB, hM] at h
                      exact ihol _ _ h
                  · simp only [Deserializer.objectLoop, hN, hC, hV, hB] at h
                    injection h with h2
                    exact Option.noConfusion h2
          | _ =>
            simp only [Deserializer.objectLoop, hN] at h
            exact Except.noConfusion h
    · intro l h
      rcases hT : Tokenizer.eat_token Token.RightBracket ((Tokenizer.eat_whitespaces l).2) with
        ⟨b, l2⟩
      cases b <;> simp only [Deserializer.array, hT] at h
      · exact ihal _ _ h
      · injection h with h2
        exact Option.noConfusion h2
    · intro acc l h
      rcases hV : Deserializer.value f ((Tokenizer.eat_whitespaces l).2) with ⟨resv, l2⟩
      rcases resv with e | ov
      · simp only [Deserializer.arrayLoop, hV] at h
        exact Except.noConfusion h
      · rcases ov with _ | v
        · simp only [Deserializer.arrayLoop, hV] at h
          exact Except.noConfusion h
        · rcases hB : Tokenizer.eat_token Token.RightBracket
            ((Tokenizer.eat_whitespaces l2).2) with ⟨bb, l4⟩
          cases bb
          · rcases hM : Tokenizer.eat_token Token.Comma l4 with ⟨bm, l5⟩
            cases bm
            · simp only [Deserializer.arrayLoop, hV, hB, hM] at h
              exact Except.noConfusion h
            · simp only [Deserializer.arrayLoop, hV, hB, hM] at h
              exact ihal _ _ h
          · simp only [Deserializer.arrayLoop, hV, hB] at h
            injection h with h2
            exact Option.noConfusion h2

/-- Claim C10.  Neither `next` nor `parse` ever returns `Ok(None)`: every
success is `Ok(Some(token))` resp. `Ok(Some(value))`, and end of input is
reported through the `EOF` error, never as a `None` success. -/
theorem spec_C10 (l : List Char) :
    (Tokenizer.next l).1 ≠ Except.ok none ∧ (Deserializer.parse l).1 ≠ Except.ok none := by
  constructor
  · rcases next_res l with ⟨t, h⟩ | ⟨e, h, hne⟩
    · rw [h]
      intro hx
      injection hx with hx2
      exact Option.noConfusion hx2
    · rw [h]
      exact fun hx => Except.noConfusion hx
  · show (Deserializer.value (4 * l.length + 16) l).1 ≠ Except.ok none
    exact (parser_no_none (4 * l.length + 16)).1 l

/-- Witness for `spec_C9` at the concrete input `x`. -/
theorem spec_C9_witness : (Tokenizer.next ['x']).1 ≠ Except.error Error.InvalidString :=
  spec_C9 ['x']

/-- Witness for `spec_C10` at the empty input. -/
theorem spec_C10_witness :
    (Tokenizer.next []).1 ≠ Except.ok none ∧ (Deserializer.parse []).1 ≠ Except.ok none :=
  spec_C10 []
